import Mathlib

/-!
# hashCodeNative.cpp: hash-code helpers of `@esfx/equatable`

A shallow embedding of `lib/hashCodeNative.cpp` and the properties of its
hash mixing. Fixed-width machine integers are natural numbers reduced modulo
`2 ^ w` at every place where the C++ value is stored in a `w`-bit type;
`int32_t` results are integers in `[-2 ^ 31, 2 ^ 31)`.

The standard library's `std::hash` specialisations and the host runtime's
value accessors are not part of the file: the former are parameters
(`StdHash`), the latter are modelled after the interface the specification
requires of the host.

A callback is followed in full when its guard passes. When the guard fails the
source calls `ThrowException` and carries on, without a `return`, reading
through an unchecked cast of the argument; the embedding records that the guard
failed and what was thrown (`Outcome.guardFailed`) and stops there.
-/

namespace HashCodeNative

/-! ## Machine integers -/

/-- Conversion of a non-negative value to `size_t` (64 bits wide). -/
def size_t (n : Nat) : Nat := n % 2 ^ 64

/-- Conversion of a non-negative value to `uint32_t`. -/
def uint32_t (n : Nat) : Nat := n % 2 ^ 32

/-- Conversion of a non-negative value to `int32_t`: the low 32 bits read as a
two's complement number. -/
def int32_t (n : Nat) : Int :=
  if n % 2 ^ 32 < 2 ^ 31 then ((n % 2 ^ 32 : Nat) : Int)
  else ((n % 2 ^ 32 : Nat) : Int) - 2 ^ 32

/-- Conversion of a signed value (`int`, `int32_t`) to `size_t`: sign extension
to 64 bits. -/
def size_t_of_int (x : Int) : Nat := (x % 2 ^ 64).toNat

/-! ## `ConvertHash` (lines 3-7) -/

/-- Embedding of `ConvertHash(size_t hash)`. -/
def ConvertHash (hash : Nat) : Int :=
  let lo := uint32_t (hash &&& 0xffffffff)
  let hi := uint32_t (hash >>> 32)
  int32_t ((uint32_t (hi <<< 7) ||| (hi >>> 25)) ^^^ lo)

/-! ## The standard library's hash function objects -/

/-- Modelled from the spec: the host's numeric value, "the full-precision
floating value" of section 6. A value is a finite number other than negative
zero, given exactly as a rational, or one of the special values. The
representable doubles are a subset of these. -/
inductive Number where
  | finite (q : ℚ)
  | negZero
  | infinity (negative : Bool)
  | nan

/-- The `std::hash` specialisations the file instantiates. Each returns a
`size_t`; the embedding reduces the results with `size_t`. -/
structure StdHash where
  /-- Stands for `std::hash<int>` and `std::hash<int32_t>` (the same type). -/
  hashInt : Int → Nat
  /-- Stands for `std::hash<uint32_t>`. -/
  hashUint32 : Nat → Nat
  /-- Stands for `std::hash<uint64_t>`. -/
  hashUint64 : Nat → Nat
  /-- Stands for `std::hash<double>`. -/
  hashDouble : Number → Nat

/-- The integer hash of the common standard libraries: the value converted to
the 64-bit word. The hash of a double is left as a parameter. -/
def integerValueHash (hashDouble : Number → Nat) : StdHash where
  hashInt := size_t_of_int
  hashUint32 := fun x => x
  hashUint64 := fun x => x
  hashDouble := hashDouble

/-! ## `HashBigInt` (lines 9-23) -/

/-- What `WordCount` and `ToWordsArray` deliver for a `v8::BigInt`: the sign
bit and the magnitude words, least significant first. -/
structure BigInt where
  sign_bit : Int
  words : List Nat

/-- The loop `for (uint64_t word : words)` of `HashBigInt`, with the running
value of `hash`. -/
def HashBigInt.loop (std : StdHash) : Nat → List Nat → Nat
  | hash, [] => hash
  | hash, word :: words =>
    let hash1 := size_t (hash <<< 15) ||| (hash >>> 49)
    let hash2 := hash1 ^^^ size_t (std.hashUint64 word)
    HashBigInt.loop std hash2 words

/-- Embedding of `size_t HashBigInt(v8::Local<v8::BigInt>)`. -/
def HashBigInt (std : StdHash) (bigint_key : BigInt) : Nat :=
  HashBigInt.loop std (size_t (std.hashInt bigint_key.sign_bit)) bigint_key.words

/-! ## `HashNumber` (lines 38-42) -/

/-- Modelled from the spec: the integer part of a rational, rounding toward
zero (the first step of the host's conversions to 32-bit integers). -/
def Number.truncate (q : ℚ) : Int :=
  if 0 ≤ q then Int.floor q else Int.ceil q

/-- Modelled from the spec: the host's test "is exactly representable as
signed 32-bit integer" (`IsInt32`). Negative zero and the special values are
not. -/
def Number.IsInt32 : Number → Bool
  | .finite q => decide (q.den = 1) && decide (-2 ^ 31 ≤ q.num) && decide (q.num < 2 ^ 31)
  | _ => false

/-- Modelled from the spec: the host's test "is exactly representable as
unsigned 32-bit integer" (`IsUint32`). -/
def Number.IsUint32 : Number → Bool
  | .finite q => decide (q.den = 1) && decide (0 ≤ q.num) && decide (q.num < 2 ^ 32)
  | _ => false

/-- Modelled from the spec: the host's accessor for the signed 32-bit
representation (`Int32Value`): the value truncated and wrapped to 32 bits. -/
def Number.Int32Value : Number → Int
  | .finite q => int32_t (Number.truncate q % 2 ^ 32).toNat
  | _ => 0

/-- Modelled from the spec: the host's accessor for the unsigned 32-bit
representation (`Uint32Value`). -/
def Number.Uint32Value : Number → Nat
  | .finite q => (Number.truncate q % 2 ^ 32).toNat
  | _ => 0

/-- Modelled from the spec: the host's accessor for the full-precision
floating value (`NumberValue`). -/
def Number.NumberValue (x : Number) : Number := x

/-- Embedding of `size_t HashNumber(v8::Local<v8::Number>, v8::Local<v8::Context>)`. -/
def HashNumber (std : StdHash) (number_key : Number) : Nat :=
  if number_key.IsInt32 then size_t (std.hashInt number_key.Int32Value)
  else if number_key.IsUint32 then size_t (std.hashUint32 number_key.Uint32Value)
  else size_t (std.hashDouble number_key.NumberValue)

/-! ## `HashName` and `HashObject` (lines 57-59, 74-76) -/

/-- A `v8::Name` (a string or a symbol) as far as the file looks at it: the
identity hash the host reports, an `int`. -/
structure Name where
  GetIdentityHash : Int

/-- A `v8::Object` as far as the file looks at it: the identity hash the host
reports, an `int`. -/
structure Object where
  GetIdentityHash : Int

/-- Embedding of `size_t HashName(v8::Local<v8::Name>)`. -/
def HashName (name_key : Name) : Nat := size_t_of_int name_key.GetIdentityHash

/-- Embedding of `size_t HashObject(v8::Local<v8::Object>)`. -/
def HashObject (object_key : Object) : Nat := size_t_of_int object_key.GetIdentityHash

/-! ## Callbacks (lines 25-36, 44-55, 61-72, 78-89) and `Init` (lines 91-97) -/

/-- Modelled from the spec: the tagged input value, by runtime kind. -/
inductive Value where
  | undefined
  | null
  | boolean (b : Bool)
  | number (x : Number)
  | bigint (b : BigInt)
  | string (s : Name)
  | symbol (s : Name)
  | object (o : Object)

/-- Host test `IsBigInt`. -/
def Value.IsBigInt : Value → Bool
  | .bigint _ => true
  | _ => false

/-- Host test `IsNumber`. -/
def Value.IsNumber : Value → Bool
  | .number _ => true
  | _ => false

/-- Host test `IsString`. -/
def Value.IsString : Value → Bool
  | .string _ => true
  | _ => false

/-- Host test `IsSymbol`. -/
def Value.IsSymbol : Value → Bool
  | .symbol _ => true
  | _ => false

/-- Host test `IsName`: the value is a string or a symbol, the two kinds of
`v8::Name`. -/
def Value.IsName (v : Value) : Bool := v.IsString || v.IsSymbol

/-- Host test `IsObject`. -/
def Value.IsObject : Value → Bool
  | .object _ => true
  | _ => false

/-- The cast `As<v8::BigInt>()`. It is unchecked in the source; the model
defines it on big integers only. -/
def Value.AsBigInt : Value → Option BigInt
  | .bigint b => some b
  | _ => none

/-- The cast `As<v8::Number>()`, defined on numbers only. -/
def Value.AsNumber : Value → Option Number
  | .number x => some x
  | _ => none

/-- The cast `As<v8::Name>()`, defined on strings and symbols only. -/
def Value.AsName : Value → Option Name
  | .string s => some s
  | .symbol s => some s
  | _ => none

/-- The cast `As<v8::Object>()`, defined on objects only. -/
def Value.AsObject : Value → Option Object
  | .object o => some o
  | _ => none

/-- The exception a callback hands to `ThrowException`. -/
inductive Exception where
  | TypeError (message : String)
deriving DecidableEq

/-- How far the model follows a callback.
* `returned value`: the guard passed, nothing was thrown, and `value` was
  stored with `GetReturnValue().Set`.
* `guardFailed thrown`: the guard failed and `ThrowException(thrown)` was
  called. The source has no `return` there: it goes on to read through an
  unchecked cast of the argument. What the process does from that point on is
  decided by the host's memory and is not modelled. -/
inductive Outcome where
  | returned (value : Int)
  | guardFailed (thrown : Exception)
deriving DecidableEq

/-- `args[i]` of a `FunctionCallbackInfo`: the undefined value past the end. -/
def argument (args : List Value) (i : Nat) : Value := args.getD i Value.undefined

/-- Embedding of `void HashBigInt(const v8::FunctionCallbackInfo<v8::Value>&)`.
The second `guardFailed` is never reached: past the guard the argument is a big
integer. -/
def Callback.HashBigInt (std : StdHash) (args : List Value) : Outcome :=
  if decide (args.length < 1) || !(argument args 0).IsBigInt then
    Outcome.guardFailed (Exception.TypeError "Invalid arguments")
  else
    match (argument args 0).AsBigInt with
    | some bigint_key =>
      let hash := HashCodeNative.HashBigInt std bigint_key
      Outcome.returned (ConvertHash hash)
    | none => Outcome.guardFailed (Exception.TypeError "Invalid arguments")

/-- Embedding of `void HashNumber(const v8::FunctionCallbackInfo<v8::Value>&)`.
The second `guardFailed` is never reached: past the guard the argument is a
number. -/
def Callback.HashNumber (std : StdHash) (args : List Value) : Outcome :=
  if decide (args.length < 1) || !(argument args 0).IsNumber then
    Outcome.guardFailed (Exception.TypeError "Invalid arguments")
  else
    match (argument args 0).AsNumber with
    | some number_key =>
      let hash := HashCodeNative.HashNumber std number_key
      Outcome.returned (ConvertHash hash)
    | none => Outcome.guardFailed (Exception.TypeError "Invalid arguments")

/-- Embedding of `void HashName(const v8::FunctionCallbackInfo<v8::Value>&)`.
The second `guardFailed` is never reached: past the guard the argument is a
string or a symbol. -/
def Callback.HashName (args : List Value) : Outcome :=
  if decide (args.length < 1) || !(argument args 0).IsName then
    Outcome.guardFailed (Exception.TypeError "Invalid arguments")
  else
    match (argument args 0).AsName with
    | some string_key =>
      let hash := HashCodeNative.HashName string_key
      Outcome.returned (ConvertHash hash)
    | none => Outcome.guardFailed (Exception.TypeError "Invalid arguments")

/-- Embedding of `void HashObject(const v8::FunctionCallbackInfo<v8::Value>&)`.
The second `guardFailed` is never reached: past the guard the argument is an
object. -/
def Callback.HashObject (args : List Value) : Outcome :=
  if decide (args.length < 1) || !(argument args 0).IsObject then
    Outcome.guardFailed (Exception.TypeError "Invalid arguments")
  else
    match (argument args 0).AsObject with
    | some object_key =>
      let hash := HashCodeNative.HashObject object_key
      Outcome.returned (ConvertHash hash)
    | none => Outcome.guardFailed (Exception.TypeError "Invalid arguments")

/-- Embedding of `Init`: the exported names and the callback bound to each. -/
def Init (std : StdHash) : List (String × (List Value → Outcome)) :=
  [("hashBigInt", Callback.HashBigInt std),
   ("hashNumber", Callback.HashNumber std),
   ("hashString", Callback.HashName),
   ("hashSymbol", Callback.HashName),
   ("hashObject", Callback.HashObject)]

/-- A call of the exported function `name` with the arguments `args`. -/
def call (std : StdHash) (name : String) (args : List Value) : Option Outcome :=
  ((Init std).lookup name).map (fun callback => callback args)

/-! ## A concrete environment for the examples -/

/-- The integer value hash, with every double hashed to zero. -/
def exampleStd : StdHash := integerValueHash (fun _ => 0)

/-! ## Specification-side definitions -/

/-- Left rotation by `r` within `w` bits, following the specification: the
bits shifted out at the top come back in at the bottom. -/
def rotl (w r x : Nat) : Nat :=
  (x % 2 ^ w * 2 ^ r) % 2 ^ w + (x % 2 ^ w) / 2 ^ (w - r)

/-- The normalization of section 4.1, following the specification's words. -/
def normalize (h : Nat) : Int :=
  let lo := h % 2 ^ 32
  let hi := h / 2 ^ 32
  int32_t (rotl 32 7 hi ^^^ lo)

/-- The step of the big-integer hash, following the specification: rotate the
accumulator left by 15 bits, then XOR with the hash of the word. -/
def bigIntStep (std : StdHash) (acc word : Nat) : Nat :=
  rotl 64 15 acc ^^^ size_t (std.hashUint64 word)

/-! ## Bit-level lemmas -/

theorem and_mask32 (x : Nat) : x &&& 0xffffffff = x % 2 ^ 32 :=
  Nat.and_pow_two_sub_one_eq_mod x 32

/-- The shift-and-or idiom of the source is the rotation of the specification. -/
theorem shl_or_shr_eq_rotl (w r x : Nat) (hr : r ≤ w) (hx : x < 2 ^ w) :
    ((x <<< r) % 2 ^ w ||| (x >>> (w - r))) = rotl w r x := by
  unfold rotl
  rw [Nat.mod_eq_of_lt hx, Nat.shiftLeft_eq, Nat.shiftRight_eq_div_pow]
  have hw : 2 ^ w = 2 ^ (w - r) * 2 ^ r := by
    rw [← pow_add, Nat.sub_add_cancel hr]
  have hb : x / 2 ^ (w - r) < 2 ^ r := by
    rw [Nat.div_lt_iff_lt_mul (by positivity), mul_comm, ← hw]
    exact hx
  have hm : x * 2 ^ r % 2 ^ w = 2 ^ r * (x % 2 ^ (w - r)) := by
    rw [hw, Nat.mul_mod_mul_right, mul_comm]
  rw [hm, Nat.mul_add_lt_is_or hb]

theorem rotl_lt (w r x : Nat) (hr : r ≤ w) : rotl w r x < 2 ^ w := by
  have hx : x % 2 ^ w < 2 ^ w := Nat.mod_lt _ (by positivity)
  have h : rotl w r x = rotl w r (x % 2 ^ w) := by
    unfold rotl
    rw [Nat.mod_mod]
  rw [h, ← shl_or_shr_eq_rotl w r _ hr hx]
  apply Nat.or_lt_two_pow (Nat.mod_lt _ (by positivity))
  rw [Nat.shiftRight_eq_div_pow]
  exact lt_of_le_of_lt (Nat.div_le_self _ _) hx

/-- On 32-bit words the rotation by 7 moves the top 7 bits to the bottom. -/
theorem rotl_32_7 (x : Nat) (hx : x < 2 ^ 32) :
    rotl 32 7 x = x % 2 ^ 25 * 2 ^ 7 + x / 2 ^ 25 := by
  unfold rotl
  norm_num at hx ⊢
  omega

theorem rotl_32_7_injective (a b : Nat) (ha : a < 2 ^ 32) (hb : b < 2 ^ 32)
    (h : rotl 32 7 a = rotl 32 7 b) : a = b := by
  rw [rotl_32_7 a ha, rotl_32_7 b hb] at h
  norm_num at ha hb h
  omega

theorem int32_t_injective (a b : Nat) (ha : a < 2 ^ 32) (hb : b < 2 ^ 32)
    (h : int32_t a = int32_t b) : a = b := by
  unfold int32_t at h
  norm_num at ha hb h
  split_ifs at h <;> omega

/-- The source's normalization is the specification's, on every 64-bit word. -/
theorem ConvertHash_eq_normalize (h : Nat) (hh : h < 2 ^ 64) :
    ConvertHash h = normalize h := by
  have hhi : h / 2 ^ 32 < 2 ^ 32 := by
    norm_num at hh ⊢
    omega
  unfold ConvertHash normalize
  simp only [uint32_t]
  rw [and_mask32, Nat.mod_mod, Nat.shiftRight_eq_div_pow, Nat.mod_eq_of_lt hhi]
  have := shl_or_shr_eq_rotl 32 7 (h / 2 ^ 32) (by norm_num) hhi
  simp only [show 32 - 7 = 25 from rfl] at this
  rw [this]

theorem testBit_eq_false_of_lt_two_pow (x w j : Nat) (hx : x < 2 ^ w) (hj : w ≤ j) :
    x.testBit j = false :=
  Nat.testBit_lt_two_pow (lt_of_lt_of_le hx (Nat.pow_le_pow_right (by norm_num) hj))

/-- XOR with the all-ones word of width `n` is the complement within `n` bits. -/
theorem allOnes_xor (n x : Nat) (hx : x < 2 ^ n) : (2 ^ n - 1) ^^^ x = 2 ^ n - 1 - x := by
  apply Nat.eq_of_testBit_eq
  intro i
  have h : 2 ^ n - 1 - x = 2 ^ n - (x + 1) := by omega
  rw [h, Nat.testBit_two_pow_sub_succ hx, Nat.testBit_xor, Nat.testBit_two_pow_sub_one]
  by_cases hi : i < n
  · simp [hi]
  · simp [hi, testBit_eq_false_of_lt_two_pow x n i hx (by omega)]

/-- Bits of the rotation in its shift-and-or form. -/
theorem testBit_shl_or_shr (w r x i : Nat) (hr : r ≤ w) (hx : x < 2 ^ w) :
    ((x <<< r) % 2 ^ w ||| (x >>> (w - r))).testBit i =
      if i < r then x.testBit (w - r + i) else (decide (i < w) && x.testBit (i - r)) := by
  rw [Nat.testBit_or, Nat.testBit_mod_two_pow, Nat.testBit_shiftLeft, Nat.testBit_shiftRight]
  by_cases hi : i < r
  · have : ¬ (i ≥ r) := by omega
    simp [hi, this]
  · have h1 : i ≥ r := by omega
    have h2 := testBit_eq_false_of_lt_two_pow x w (w - r + i) hx (by omega)
    simp [hi, h1, h2]

theorem testBit_rotl (w r x i : Nat) (hr : r ≤ w) (hx : x < 2 ^ w) :
    (rotl w r x).testBit i =
      if i < r then x.testBit (w - r + i) else (decide (i < w) && x.testBit (i - r)) := by
  rw [← shl_or_shr_eq_rotl w r x hr hx, testBit_shl_or_shr w r x i hr hx]

/-- Rotation distributes over XOR. -/
theorem rotl_xor (w r a b : Nat) (hr : r ≤ w) (ha : a < 2 ^ w) (hb : b < 2 ^ w) :
    rotl w r (a ^^^ b) = rotl w r a ^^^ rotl w r b := by
  apply Nat.eq_of_testBit_eq
  intro i
  rw [Nat.testBit_xor, testBit_rotl w r _ i hr (Nat.xor_lt_two_pow ha hb),
    testBit_rotl w r a i hr ha, testBit_rotl w r b i hr hb]
  by_cases hi : i < r
  · simp [hi]
  · by_cases hw : i < w <;> simp [hi, hw]

/-- Rotating a single set bit moves it by the rotation amount. -/
theorem rotl_64_15_two_pow (k : Nat) (hk : k < 64) :
    rotl 64 15 (2 ^ k) = 2 ^ ((k + 15) % 64) := by
  interval_cases k <;> rfl

/-! ## Properties of `ConvertHash` -/

theorem normalize_arg_lt (h : Nat) : rotl 32 7 (h / 2 ^ 32) ^^^ (h % 2 ^ 32) < 2 ^ 32 :=
  Nat.xor_lt_two_pow (rotl_lt 32 7 _ (by norm_num)) (Nat.mod_lt _ (by positivity))

/-- With equal low halves, equal results force equal high halves. -/
theorem ConvertHash_hi_eq (h1 h2 : Nat) (hh1 : h1 < 2 ^ 64) (hh2 : h2 < 2 ^ 64)
    (hlo : h1 % 2 ^ 32 = h2 % 2 ^ 32) (h : ConvertHash h1 = ConvertHash h2) :
    h1 / 2 ^ 32 = h2 / 2 ^ 32 := by
  rw [ConvertHash_eq_normalize h1 hh1, ConvertHash_eq_normalize h2 hh2] at h
  have hx := int32_t_injective _ _ (normalize_arg_lt h1) (normalize_arg_lt h2) h
  rw [hlo, Nat.xor_left_inj] at hx
  refine rotl_32_7_injective _ _ ?_ ?_ hx
  · norm_num at hh1 ⊢
    omega
  · norm_num at hh2 ⊢
    omega

/-- With equal high halves, equal results force equal low halves. -/
theorem ConvertHash_lo_eq (h1 h2 : Nat) (hh1 : h1 < 2 ^ 64) (hh2 : h2 < 2 ^ 64)
    (hhi : h1 / 2 ^ 32 = h2 / 2 ^ 32) (h : ConvertHash h1 = ConvertHash h2) :
    h1 % 2 ^ 32 = h2 % 2 ^ 32 := by
  rw [ConvertHash_eq_normalize h1 hh1, ConvertHash_eq_normalize h2 hh2] at h
  have hx := int32_t_injective _ _ (normalize_arg_lt h1) (normalize_arg_lt h2) h
  rw [hhi, Nat.xor_right_inj] at hx
  exact hx

/-- A 32-bit value zero-extended to 64 bits is its own normalization. -/
theorem ConvertHash_of_lt (n : Nat) (hn : n < 2 ^ 32) : ConvertHash n = int32_t n := by
  have h64 : n < 2 ^ 64 := lt_of_lt_of_le hn (by norm_num)
  rw [ConvertHash_eq_normalize n h64]
  unfold normalize
  have hhi : n / 2 ^ 32 = 0 := Nat.div_eq_of_lt hn
  have hr : rotl 32 7 0 = 0 := by decide
  simp only [hhi, hr, Nat.zero_xor, Nat.mod_eq_of_lt hn]

/-- A negative 32-bit value sign-extended to 64 bits normalizes to its
bitwise complement. -/
theorem ConvertHash_of_neg (n : Int) (hlo : -2 ^ 31 ≤ n) (hneg : n < 0) :
    ConvertHash (size_t_of_int n) = -n - 1 := by
  obtain ⟨m, hm⟩ : ∃ m : Nat, n = -((m : Int) + 1) := ⟨(-n - 1).toNat, by omega⟩
  have hm31 : m < 2 ^ 31 := by
    norm_num at hlo ⊢
    omega
  have hs : size_t_of_int n = (2 ^ 32 - 1) * 2 ^ 32 + (2 ^ 32 - 1 - m) := by
    unfold size_t_of_int
    norm_num at hm31 ⊢
    omega
  have h64 : size_t_of_int n < 2 ^ 64 := by
    rw [hs]
    norm_num at hm31 ⊢
    omega
  rw [ConvertHash_eq_normalize _ h64]
  unfold normalize
  have hhi : size_t_of_int n / 2 ^ 32 = 2 ^ 32 - 1 := by
    rw [hs]
    norm_num at hm31 ⊢
    omega
  have hl : size_t_of_int n % 2 ^ 32 = 2 ^ 32 - 1 - m := by
    rw [hs]
    norm_num at hm31 ⊢
    omega
  have hr : rotl 32 7 (2 ^ 32 - 1) = 2 ^ 32 - 1 := by decide
  have hx : 2 ^ 32 - 1 - m < 2 ^ 32 := by omega
  simp only [hhi, hl, hr]
  rw [allOnes_xor 32 _ hx]
  unfold int32_t
  norm_num at hm31 ⊢
  split_ifs <;> omega

/-! ## Properties of `HashBigInt` -/

theorem size_t_lt (n : Nat) : size_t n < 2 ^ 64 := Nat.mod_lt _ (by positivity)

theorem bigIntStep_lt (std : StdHash) (acc word : Nat) : bigIntStep std acc word < 2 ^ 64 :=
  Nat.xor_lt_two_pow (rotl_lt 64 15 _ (by norm_num)) (size_t_lt _)

/-- One turn of the source loop is one step of the specification's fold. -/
theorem loop_cons (std : StdHash) (hash word : Nat) (words : List Nat) (hh : hash < 2 ^ 64) :
    HashBigInt.loop std hash (word :: words) =
      HashBigInt.loop std (bigIntStep std hash word) words := by
  have h := shl_or_shr_eq_rotl 64 15 hash (by norm_num) hh
  simp only [show 64 - 15 = 49 from rfl] at h
  simp only [HashBigInt.loop, bigIntStep, size_t]
  rw [h]

theorem loop_eq_foldl (std : StdHash) (words : List Nat) :
    ∀ hash, hash < 2 ^ 64 → HashBigInt.loop std hash words = words.foldl (bigIntStep std) hash := by
  induction words with
  | nil => intro hash _; rfl
  | cons word words ih =>
    intro hash hh
    rw [loop_cons std hash word words hh, List.foldl_cons]
    exact ih _ (bigIntStep_lt std hash word)

theorem foldl_bigIntStep_lt (std : StdHash) (words : List Nat) :
    ∀ hash, hash < 2 ^ 64 → words.foldl (bigIntStep std) hash < 2 ^ 64 := by
  induction words with
  | nil => intro hash hh; exact hh
  | cons word words ih =>
    intro hash _
    rw [List.foldl_cons]
    exact ih _ (bigIntStep_lt std hash word)

theorem two_pow_lt_64 (k : Nat) (hk : k < 64) : 2 ^ k < 2 ^ 64 :=
  Nat.pow_lt_pow_right (by norm_num) hk

/-- Flipping one bit of the accumulator flips one bit of the fold's result. -/
theorem foldl_flip_bit (std : StdHash) (words : List Nat) :
    ∀ acc k, acc < 2 ^ 64 → k < 64 →
      words.foldl (bigIntStep std) (acc ^^^ 2 ^ k) =
        words.foldl (bigIntStep std) acc ^^^ 2 ^ ((k + 15 * words.length) % 64) := by
  induction words with
  | nil =>
    intro acc k _ hk
    simp [Nat.mod_eq_of_lt hk]
  | cons word words ih =>
    intro acc k ha hk
    have hstep : bigIntStep std (acc ^^^ 2 ^ k) word =
        bigIntStep std acc word ^^^ 2 ^ ((k + 15) % 64) := by
      unfold bigIntStep
      rw [rotl_xor 64 15 acc (2 ^ k) (by norm_num) ha (two_pow_lt_64 k hk),
        rotl_64_15_two_pow k hk, Nat.xor_assoc, Nat.xor_assoc,
        Nat.xor_comm (2 ^ ((k + 15) % 64))]
    rw [List.foldl_cons, List.foldl_cons, hstep,
      ih _ _ (bigIntStep_lt std acc word) (Nat.mod_lt _ (by norm_num))]
    congr 2
    rw [List.length_cons]
    omega

/-- Two 64-bit words that differ in exactly one bit have different normalizations. -/
theorem ConvertHash_flip_bit_ne (a k : Nat) (ha : a < 2 ^ 64) (hk : k < 64) :
    ConvertHash (a ^^^ 2 ^ k) ≠ ConvertHash a := by
  have hb : a ^^^ 2 ^ k < 2 ^ 64 := Nat.xor_lt_two_pow ha (two_pow_lt_64 k hk)
  have hne : a ^^^ 2 ^ k ≠ a := by
    intro h
    have := congrArg (fun x => x.testBit k) h
    simp [Nat.testBit_two_pow] at this
  intro h
  apply hne
  by_cases hk32 : k < 32
  · have hhi : (a ^^^ 2 ^ k) / 2 ^ 32 = a / 2 ^ 32 := by
      apply Nat.eq_of_testBit_eq
      intro i
      rw [← Nat.shiftRight_eq_div_pow, ← Nat.shiftRight_eq_div_pow, Nat.testBit_shiftRight,
        Nat.testBit_shiftRight, Nat.testBit_xor, Nat.testBit_two_pow]
      have : ¬ (k = 32 + i) := by omega
      simp [this]
    have hlo := ConvertHash_lo_eq _ _ hb ha hhi h
    have e := Nat.div_add_mod (a ^^^ 2 ^ k) (2 ^ 32)
    rw [hhi, hlo, Nat.div_add_mod] at e
    exact e.symm
  · have hlo : (a ^^^ 2 ^ k) % 2 ^ 32 = a % 2 ^ 32 := by
      apply Nat.eq_of_testBit_eq
      intro i
      rw [Nat.testBit_mod_two_pow, Nat.testBit_mod_two_pow, Nat.testBit_xor,
        Nat.testBit_two_pow]
      by_cases hi : i < 32
      · have : ¬ (k = i) := by omega
        simp [this]
      · simp [hi]
    have hhi := ConvertHash_hi_eq _ _ hb ha hlo h
    have e := Nat.div_add_mod (a ^^^ 2 ^ k) (2 ^ 32)
    rw [hhi, hlo, Nat.div_add_mod] at e
    exact e.symm

/-! ## Properties of `HashNumber` -/

theorem truncate_intCast (n : Int) : Number.truncate (n : ℚ) = n := by
  unfold Number.truncate
  split_ifs <;> simp

theorem IsInt32_intCast (n : Int) (hlo : -2 ^ 31 ≤ n) (hhi : n < 2 ^ 31) :
    (Number.finite (n : ℚ)).IsInt32 = true := by
  simp only [Number.IsInt32, Rat.intCast_den, Rat.intCast_num, Bool.and_eq_true,
    decide_eq_true_eq]
  exact ⟨⟨trivial, hlo⟩, hhi⟩

theorem Int32Value_intCast (n : Int) (hlo : -2 ^ 31 ≤ n) (hhi : n < 2 ^ 31) :
    (Number.finite (n : ℚ)).Int32Value = n := by
  simp only [Number.Int32Value, truncate_intCast, int32_t]
  norm_num at hlo hhi ⊢
  split_ifs <;> omega

theorem Uint32Value_natCast (n : Nat) (hhi : n < 2 ^ 32) :
    (Number.finite (n : ℚ)).Uint32Value = n := by
  have h := truncate_intCast (n : Int)
  simp only [Int.cast_natCast] at h
  simp only [Number.Uint32Value, h]
  norm_num at hhi ⊢
  omega

theorem IsInt32_natCast_of_ge (n : Nat) (hlo : 2 ^ 31 ≤ n) :
    (Number.finite (n : ℚ)).IsInt32 = false := by
  have h : ¬ ((n : Int) < 2 ^ 31) := by
    norm_num at hlo ⊢
    omega
  have hq : ((n : ℚ)) = ((n : Int) : ℚ) := by simp
  simp only [Number.IsInt32, hq, Rat.intCast_den, Rat.intCast_num, Bool.and_eq_false_iff,
    decide_eq_false_iff_not]
  exact Or.inr h

theorem IsUint32_natCast (n : Nat) (hhi : n < 2 ^ 32) :
    (Number.finite (n : ℚ)).IsUint32 = true := by
  have h : (n : Int) < 2 ^ 32 := by
    norm_num at hhi ⊢
    omega
  have hq : ((n : ℚ)) = ((n : Int) : ℚ) := by simp
  simp only [Number.IsUint32, hq, Rat.intCast_den, Rat.intCast_num, Bool.and_eq_true,
    decide_eq_true_eq]
  exact ⟨⟨trivial, Int.natCast_nonneg n⟩, h⟩

/-- The two integer tests hold only of integers in `[-2 ^ 31, 2 ^ 32)`. -/
theorem exists_int_of_IsInt32_or_IsUint32 (x : Number)
    (h : x.IsInt32 = true ∨ x.IsUint32 = true) :
    ∃ n : Int, -2 ^ 31 ≤ n ∧ n < 2 ^ 32 ∧ x = Number.finite (n : ℚ) := by
  cases x with
  | finite q =>
    simp only [Number.IsInt32, Number.IsUint32, Bool.and_eq_true, decide_eq_true_eq] at h
    have hd : q.den = 1 := by tauto
    refine ⟨q.num, ?_, ?_, by rw [Rat.coe_int_num_of_den_eq_one hd]⟩
    · rcases h with h | h <;> omega
    · rcases h with h | h <;> omega
  | negZero => simp [Number.IsInt32, Number.IsUint32] at h
  | infinity b => simp [Number.IsInt32, Number.IsUint32] at h
  | nan => simp [Number.IsInt32, Number.IsUint32] at h

/-! ## The exported functions -/

theorem call_hashBigInt (std : StdHash) (args : List Value) :
    call std "hashBigInt" args = some (Callback.HashBigInt std args) := by
  simp [call, Init, List.lookup]

theorem call_hashNumber (std : StdHash) (args : List Value) :
    call std "hashNumber" args = some (Callback.HashNumber std args) := by
  simp [call, Init, List.lookup]

theorem call_hashString (std : StdHash) (args : List Value) :
    call std "hashString" args = some (Callback.HashName args) := by
  simp [call, Init, List.lookup]

theorem call_hashSymbol (std : StdHash) (args : List Value) :
    call std "hashSymbol" args = some (Callback.HashName args) := by
  simp [call, Init, List.lookup]

theorem call_hashObject (std : StdHash) (args : List Value) :
    call std "hashObject" args = some (Callback.HashObject args) := by
  simp [call, Init, List.lookup]

theorem HashBigInt_callback_bigint (std : StdHash) (b : BigInt) :
    Callback.HashBigInt std [Value.bigint b] =
      Outcome.returned (ConvertHash (HashBigInt std b)) := rfl

theorem HashNumber_callback_number (std : StdHash) (x : Number) :
    Callback.HashNumber std [Value.number x] =
      Outcome.returned (ConvertHash (HashNumber std x)) := rfl

/-- C1: for every 64-bit wide hash `h`, `ConvertHash h` is `rotl32(hi, 7) XOR lo`
read as a signed 32-bit integer, where `lo = h mod 2^32`, `hi = h div 2^32` and
`rotl32` is left rotation within 32 bits (bit `i` of the rotated word is bit
`(i + 25) mod 32` of the word); and `ConvertHash 0x0000000100000002 = 0x82`. -/
theorem C1_ConvertHash_rotate_xor :
    (∀ h : Nat, h < 2 ^ 64 →
      ConvertHash h = int32_t (rotl 32 7 (h / 2 ^ 32) ^^^ (h % 2 ^ 32))) ∧
    (∀ x i : Nat, x < 2 ^ 32 →
      (rotl 32 7 x).testBit i = (decide (i < 32) && x.testBit ((i + 25) % 32))) ∧
    ConvertHash 0x0000000100000002 = 0x00000082 := by
  refine ⟨fun h hh => ConvertHash_eq_normalize h hh, ?_, by decide⟩
  intro x i hx
  rw [testBit_rotl 32 7 x i (by norm_num) hx]
  by_cases h7 : i < 7
  · have h32 : i < 32 := by omega
    have e : (i + 25) % 32 = 32 - 7 + i := by omega
    simp [h7, h32, e]
  · by_cases h32 : i < 32
    · have e : (i + 25) % 32 = i - 7 := by omega
      simp [h7, h32, e]
    · simp [h7, h32]

/-- Witness of C1 at the wide hash `0x0000000100000002`. -/
theorem C1_ConvertHash_rotate_xor_witness :
    (0x0000000100000002 : Nat) < 2 ^ 64 ∧
    ConvertHash 0x0000000100000002 =
      int32_t (rotl 32 7 (0x0000000100000002 / 2 ^ 32) ^^^ (0x0000000100000002 % 2 ^ 32)) :=
  ⟨by norm_num, C1_ConvertHash_rotate_xor.1 0x0000000100000002 (by norm_num)⟩

/-- C2: for every sign flag `s` and word sequence `ws`, the wide hash of
`HashBigInt` is the left fold over `ws`, from `hash(s)`, of the step
`acc -> rotl64(acc, 15) XOR hash(w)`; for the empty sequence it is `hash(s)`,
and `hashBigInt` then returns the normalization of `hash(s)`, which depends on
the sign only. -/
theorem C2_HashBigInt_fold (std : StdHash) (s : Int) (ws : List Nat) :
    HashBigInt std { sign_bit := s, words := ws } =
      ws.foldl (fun acc w => rotl 64 15 acc ^^^ size_t (std.hashUint64 w))
        (size_t (std.hashInt s)) ∧
    HashBigInt std { sign_bit := s, words := [] } = size_t (std.hashInt s) ∧
    call std "hashBigInt" [Value.bigint { sign_bit := s, words := [] }] =
      some (Outcome.returned (ConvertHash (size_t (std.hashInt s)))) := by
  refine ⟨?_, rfl, ?_⟩
  · exact loop_eq_foldl std ws _ (size_t_lt _)
  · rw [call_hashBigInt]
    rfl

/-- C3: `HashNumber` picks one tier, in order: a value that is exactly a signed
32-bit integer gets the hash of that `int32`; otherwise a value that is exactly
an unsigned 32-bit integer (so in `[2^31, 2^32)`) gets the hash of that
`uint32`; every other value gets the hash of the double. So `1` and `1.0`, the
same integer of the signed tier, get the same `hashNumber` result. -/
theorem C3_HashNumber_tiers (std : StdHash) :
    (∀ n : Int, -2 ^ 31 ≤ n → n < 2 ^ 31 →
      HashNumber std (Number.finite (n : ℚ)) = size_t (std.hashInt n)) ∧
    (∀ n : Nat, 2 ^ 31 ≤ n → n < 2 ^ 32 →
      HashNumber std (Number.finite (n : ℚ)) = size_t (std.hashUint32 n)) ∧
    (∀ x : Number, (¬ ∃ n : Int, -2 ^ 31 ≤ n ∧ n < 2 ^ 32 ∧ x = Number.finite (n : ℚ)) →
      HashNumber std x = size_t (std.hashDouble x)) ∧
    (∀ x y : Number, x.IsInt32 = true → y.IsInt32 = true → x.Int32Value = y.Int32Value →
      call std "hashNumber" [Value.number x] = call std "hashNumber" [Value.number y]) ∧
    call std "hashNumber" [Value.number (Number.finite 1)] =
      call std "hashNumber" [Value.number (Number.finite 1.0)] ∧
    call std "hashNumber" [Value.number (Number.finite 1.0)] =
      some (Outcome.returned (ConvertHash (size_t (std.hashInt 1)))) := by
  have h1 : (1.0 : ℚ) = ((1 : Int) : ℚ) := by norm_num
  have h1' : (1 : ℚ) = ((1 : Int) : ℚ) := by norm_num
  have tier1 : ∀ n : Int, -2 ^ 31 ≤ n → n < 2 ^ 31 →
      HashNumber std (Number.finite (n : ℚ)) = size_t (std.hashInt n) := by
    intro n hlo hhi
    simp only [HashNumber, IsInt32_intCast n hlo hhi, Int32Value_intCast n hlo hhi, if_true]
  refine ⟨tier1, ?_, ?_, ?_, ?_, ?_⟩
  · intro n hlo hhi
    simp only [HashNumber, IsInt32_natCast_of_ge n hlo, IsUint32_natCast n hhi,
      Uint32Value_natCast n hhi, if_true]
    simp
  · intro x hx
    have hi : x.IsInt32 = false := by
      by_contra h
      exact hx (exists_int_of_IsInt32_or_IsUint32 x (Or.inl (by simpa using h)))
    have hu : x.IsUint32 = false := by
      by_contra h
      exact hx (exists_int_of_IsInt32_or_IsUint32 x (Or.inr (by simpa using h)))
    simp [HashNumber, hi, hu, Number.NumberValue]
  · intro x y hx hy hxy
    rw [call_hashNumber, call_hashNumber, HashNumber_callback_number,
      HashNumber_callback_number]
    simp [HashNumber, hx, hy, hxy]
  · rw [h1, h1']
  · rw [h1, call_hashNumber, HashNumber_callback_number,
      tier1 1 (by norm_num) (by norm_num)]

/-- Witness of C3 at the numbers `1` (signed tier), `2^31` (unsigned tier) and
NaN (double tier); in the last part `x` and `y` are both the number `1`. -/
theorem C3_HashNumber_tiers_witness :
    HashNumber exampleStd (Number.finite ((1 : Int) : ℚ)) = size_t (exampleStd.hashInt 1) ∧
    HashNumber exampleStd (Number.finite ((2147483648 : Nat) : ℚ)) =
      size_t (exampleStd.hashUint32 2147483648) ∧
    HashNumber exampleStd Number.nan = size_t (exampleStd.hashDouble Number.nan) ∧
    call exampleStd "hashNumber" [Value.number (Number.finite ((1 : Int) : ℚ))] =
      call exampleStd "hashNumber" [Value.number (Number.finite ((1 : Int) : ℚ))] :=
  ⟨(C3_HashNumber_tiers exampleStd).1 1 (by norm_num) (by norm_num),
   (C3_HashNumber_tiers exampleStd).2.1 2147483648 (by norm_num) (by norm_num),
   (C3_HashNumber_tiers exampleStd).2.2.1 Number.nan
     (by rintro ⟨n, _, _, h⟩; cases h),
   (C3_HashNumber_tiers exampleStd).2.2.2.1 _ _
     (IsInt32_intCast 1 (by norm_num) (by norm_num))
     (IsInt32_intCast 1 (by norm_num) (by norm_num)) rfl⟩

theorem HashBigInt_integerValueHash (hashDouble : Number → Nat) (ws : List Nat) :
    HashBigInt (integerValueHash hashDouble) { sign_bit := 1, words := ws } =
      HashBigInt (integerValueHash hashDouble) { sign_bit := 0, words := ws } ^^^
        2 ^ ((0 + 15 * ws.length) % 64) := by
  have h1 : size_t ((integerValueHash hashDouble).hashInt 1) = 0 ^^^ 2 ^ 0 := by
    show size_t (size_t_of_int 1) = 0 ^^^ 2 ^ 0
    decide
  have h0 : size_t ((integerValueHash hashDouble).hashInt 0) = 0 := by
    show size_t (size_t_of_int 0) = 0
    decide
  unfold HashBigInt
  rw [loop_eq_foldl _ _ _ (size_t_lt _), loop_eq_foldl _ _ _ (size_t_lt _)]
  simp only [h1, h0]
  exact foldl_flip_bit _ ws 0 0 (by norm_num) (by norm_num)

theorem HashBigInt_lt (std : StdHash) (b : BigInt) : HashBigInt std b < 2 ^ 64 := by
  unfold HashBigInt
  rw [loop_eq_foldl _ _ _ (size_t_lt _)]
  exact foldl_bigIntStep_lt std _ _ (size_t_lt _)

/-- C5: with the integer hash that converts the value to the 64-bit word, for
every word sequence `ws` the negative and the non-negative big integer of
magnitude `ws` get different wide hashes, different normalized hashes, and
different `hashBigInt` results. -/
theorem C5_HashBigInt_sign_sensitive (hashDouble : Number → Nat) (ws : List Nat) :
    HashBigInt (integerValueHash hashDouble) { sign_bit := 1, words := ws } ≠
      HashBigInt (integerValueHash hashDouble) { sign_bit := 0, words := ws } ∧
    ConvertHash (HashBigInt (integerValueHash hashDouble) { sign_bit := 1, words := ws }) ≠
      ConvertHash (HashBigInt (integerValueHash hashDouble) { sign_bit := 0, words := ws }) ∧
    call (integerValueHash hashDouble) "hashBigInt"
        [Value.bigint { sign_bit := 1, words := ws }] =
      some (Outcome.returned (ConvertHash
        (HashBigInt (integerValueHash hashDouble) { sign_bit := 1, words := ws }))) ∧
    call (integerValueHash hashDouble) "hashBigInt"
        [Value.bigint { sign_bit := 0, words := ws }] =
      some (Outcome.returned (ConvertHash
        (HashBigInt (integerValueHash hashDouble) { sign_bit := 0, words := ws }))) ∧
    call (integerValueHash hashDouble) "hashBigInt"
        [Value.bigint { sign_bit := 1, words := ws }] ≠
      call (integerValueHash hashDouble) "hashBigInt"
        [Value.bigint { sign_bit := 0, words := ws }] := by
  have hne := ConvertHash_flip_bit_ne
    (HashBigInt (integerValueHash hashDouble) { sign_bit := 0, words := ws })
    ((0 + 15 * ws.length) % 64) (HashBigInt_lt _ _) (Nat.mod_lt _ (by norm_num))
  rw [← HashBigInt_integerValueHash hashDouble ws] at hne
  refine ⟨fun h => hne (by rw [h]), hne, ?_, ?_, ?_⟩
  · rw [call_hashBigInt, HashBigInt_callback_bigint]
  · rw [call_hashBigInt, HashBigInt_callback_bigint]
  · rw [call_hashBigInt, call_hashBigInt, HashBigInt_callback_bigint,
      HashBigInt_callback_bigint]
    intro h
    apply hne
    simpa using h

/-- C7: `hashString` and `hashSymbol` are bound to the same callback; for a
string or a symbol with identity hash `i` both return the normalization of `i`
and throw nothing, and `hashObject` of an object with identity hash `j` returns
the normalization of `j`. The result is a function of the value alone, so a
repeated call returns the same result. -/
theorem C7_identity_hash_delegation (std : StdHash) (i j : Int) :
    (Init std).lookup "hashString" = some Callback.HashName ∧
    (Init std).lookup "hashSymbol" = some Callback.HashName ∧
    call std "hashString" [Value.string { GetIdentityHash := i }] =
      some (Outcome.returned (ConvertHash (size_t_of_int i))) ∧
    call std "hashSymbol" [Value.string { GetIdentityHash := i }] =
      some (Outcome.returned (ConvertHash (size_t_of_int i))) ∧
    call std "hashString" [Value.symbol { GetIdentityHash := i }] =
      some (Outcome.returned (ConvertHash (size_t_of_int i))) ∧
    call std "hashSymbol" [Value.symbol { GetIdentityHash := i }] =
      some (Outcome.returned (ConvertHash (size_t_of_int i))) ∧
    call std "hashObject" [Value.object { GetIdentityHash := j }] =
      some (Outcome.returned (ConvertHash (size_t_of_int j))) := by
  refine ⟨?_, ?_, ?_, ?_, ?_, ?_, ?_⟩
  · simp [Init, List.lookup]
  · simp [Init, List.lookup]
  · rw [call_hashString]; rfl
  · rw [call_hashSymbol]; rfl
  · rw [call_hashString]; rfl
  · rw [call_hashSymbol]; rfl
  · rw [call_hashObject]; rfl

/-- C9: `ConvertHash` is injective in each half of its input: two 64-bit wide
hashes with the same low 32 bits and different high 32 bits have different
results, and so have two with the same high 32 bits and different low 32 bits. -/
theorem C9_ConvertHash_injective_in_each_half (h1 h2 : Nat)
    (hh1 : h1 < 2 ^ 64) (hh2 : h2 < 2 ^ 64) :
    (h1 % 2 ^ 32 = h2 % 2 ^ 32 → h1 / 2 ^ 32 ≠ h2 / 2 ^ 32 →
      ConvertHash h1 ≠ ConvertHash h2) ∧
    (h1 / 2 ^ 32 = h2 / 2 ^ 32 → h1 % 2 ^ 32 ≠ h2 % 2 ^ 32 →
      ConvertHash h1 ≠ ConvertHash h2) :=
  ⟨fun hlo hne h => hne (ConvertHash_hi_eq h1 h2 hh1 hh2 hlo h),
   fun hhi hne h => hne (ConvertHash_lo_eq h1 h2 hh1 hh2 hhi h)⟩

/-- Witness of C9: `0x0000000100000002` against `0x0000000300000002` (same low
half) and against `0x0000000100000005` (same high half). -/
theorem C9_ConvertHash_injective_in_each_half_witness :
    ConvertHash 0x0000000100000002 ≠ ConvertHash 0x0000000300000002 ∧
    ConvertHash 0x0000000100000002 ≠ ConvertHash 0x0000000100000005 :=
  ⟨(C9_ConvertHash_injective_in_each_half 0x0000000100000002 0x0000000300000002
      (by norm_num) (by norm_num)).1 (by norm_num) (by norm_num),
   (C9_ConvertHash_injective_in_each_half 0x0000000100000002 0x0000000100000005
      (by norm_num) (by norm_num)).2 (by norm_num) (by norm_num)⟩

theorem size_t_size_t_of_int (n : Int) : size_t (size_t_of_int n) = size_t_of_int n := by
  unfold size_t size_t_of_int
  norm_num
  omega

theorem ConvertHash_of_nonneg (n : Int) (hlo : 0 ≤ n) (hhi : n < 2 ^ 31) :
    ConvertHash (size_t_of_int n) = n := by
  have hs : size_t_of_int n = n.toNat := by
    unfold size_t_of_int
    norm_num at hhi ⊢
    omega
  have hlt : n.toNat < 2 ^ 32 := by
    norm_num at hhi ⊢
    omega
  rw [hs, ConvertHash_of_lt _ hlt]
  unfold int32_t
  norm_num at hhi ⊢
  split_ifs <;> omega

/-- The `hashNumber` result of a signed 32-bit integer under the integer value hash. -/
theorem call_hashNumber_int32 (hashDouble : Number → Nat) (n : Int)
    (hlo : -2 ^ 31 ≤ n) (hhi : n < 2 ^ 31) :
    call (integerValueHash hashDouble) "hashNumber" [Value.number (Number.finite (n : ℚ))] =
      some (Outcome.returned (if 0 ≤ n then n else -n - 1)) := by
  rw [call_hashNumber, HashNumber_callback_number]
  have hn : HashNumber (integerValueHash hashDouble) (Number.finite (n : ℚ)) =
      size_t_of_int n := by
    simp only [HashNumber, IsInt32_intCast n hlo hhi, Int32Value_intCast n hlo hhi, if_true]
    exact size_t_size_t_of_int n
  have hc : ConvertHash (size_t_of_int n) = if 0 ≤ n then n else -n - 1 := by
    split_ifs with h0
    · exact ConvertHash_of_nonneg n h0 hhi
    · exact ConvertHash_of_neg n hlo (by omega)
  rw [hn, hc]

/-- C10: `ConvertHash` of a 32-bit value zero-extended to 64 bits is the value
read as a signed 32-bit integer; of a negative signed 32-bit integer `n`
sign-extended to 64 bits it is `-n - 1`. So, when the integer hash is the value
converted to the 64-bit word, `hashNumber n = hashNumber (-n - 1)` for every
signed 32-bit `n`, and `hashNumber (-1) = hashNumber 0 = 0`. -/
theorem C10_ConvertHash_of_widened_int32 (hashDouble : Number → Nat) :
    (∀ n : Nat, n < 2 ^ 32 → ConvertHash n = int32_t n) ∧
    (∀ n : Int, -2 ^ 31 ≤ n → n < 0 → ConvertHash (size_t_of_int n) = -n - 1) ∧
    (∀ n : Int, -2 ^ 31 ≤ n → n < 2 ^ 31 →
      call (integerValueHash hashDouble) "hashNumber"
          [Value.number (Number.finite (n : ℚ))] =
        call (integerValueHash hashDouble) "hashNumber"
          [Value.number (Number.finite ((-n - 1 : Int) : ℚ))]) ∧
    call (integerValueHash hashDouble) "hashNumber"
        [Value.number (Number.finite ((-1 : Int) : ℚ))] =
      some (Outcome.returned 0) ∧
    call (integerValueHash hashDouble) "hashNumber"
        [Value.number (Number.finite ((0 : Int) : ℚ))] =
      some (Outcome.returned 0) := by
  refine ⟨ConvertHash_of_lt, ConvertHash_of_neg, ?_, ?_, ?_⟩
  · intro n hlo hhi
    rw [call_hashNumber_int32 hashDouble n hlo hhi,
      call_hashNumber_int32 hashDouble (-n - 1) (by omega) (by omega)]
    by_cases h0 : 0 ≤ n
    · have h1 : ¬ (0 ≤ -n - 1) := by omega
      simp [h0, h1]
    · have h1 : 0 ≤ -n - 1 := by omega
      simp [h0, h1]
  · rw [call_hashNumber_int32 hashDouble (-1) (by norm_num) (by norm_num)]
    simp
  · rw [call_hashNumber_int32 hashDouble 0 (by norm_num) (by norm_num)]
    simp

/-- Witness of C10 at the values `5` and `-6`. -/
theorem C10_ConvertHash_of_widened_int32_witness :
    ConvertHash 5 = int32_t 5 ∧
    ConvertHash (size_t_of_int (-6)) = -(-6) - 1 ∧
    call (integerValueHash (fun _ => 0)) "hashNumber"
        [Value.number (Number.finite ((5 : Int) : ℚ))] =
      call (integerValueHash (fun _ => 0)) "hashNumber"
        [Value.number (Number.finite ((-5 - 1 : Int) : ℚ))] :=
  ⟨(C10_ConvertHash_of_widened_int32 (fun _ => 0)).1 5 (by norm_num),
   (C10_ConvertHash_of_widened_int32 (fun _ => 0)).2.1 (-6) (by norm_num)
     (by norm_num),
   (C10_ConvertHash_of_widened_int32 (fun _ => 0)).2.2.1 5 (by norm_num)
     (by norm_num)⟩

end HashCodeNative
